import Mathlib

/-!
Verification development for the live-plugin-manager repository.

The repository ships three source files: `PluginInfo.ts` (interfaces and the
declaration of the `PluginManager` facade), `httpUtils.ts` (HTTP helpers) and
the test suite `PluginManagerSuite.ts`.  The HTTP helpers are embedded here
directly from their source.  The bodies of the version manager, the loader and
the lock are not part of the shipped sources (only their declarations, tests
and the specification describe them), so those subsystems are modelled from
the specification, as indicated on each definition.
-/

namespace LivePluginManager

/-- Semantic version as a (major, minor, patch) triple.  Modelled from the
spec: semver parsing and range satisfaction are assumed available as a
library. -/
structure SemVer where
  major : Nat
  minor : Nat
  patch : Nat
deriving DecidableEq, Repr

/-- Lexicographic order on semantic versions. -/
def SemVer.le (a b : SemVer) : Bool :=
  Nat.blt a.major b.major ||
    (a.major == b.major &&
      (Nat.blt a.minor b.minor ||
        (a.minor == b.minor && Nat.ble a.patch b.patch)))

theorem SemVer.le_iff (a b : SemVer) :
    SemVer.le a b = true ↔
      (a.major < b.major ∨
        (a.major = b.major ∧
          (a.minor < b.minor ∨ (a.minor = b.minor ∧ a.patch ≤ b.patch)))) := by
  simp [SemVer.le, Nat.blt_eq, Nat.ble_eq, Bool.or_eq_true, Bool.and_eq_true,
    beq_iff_eq]

theorem SemVer.le_refl (a : SemVer) : SemVer.le a a = true := by
  simp [SemVer.le_iff]

theorem SemVer.le_total (a b : SemVer) :
    SemVer.le a b = true ∨ SemVer.le b a = true := by
  rw [SemVer.le_iff, SemVer.le_iff]
  omega

/-- Version selector.  Modelled from the spec: a semver range for the
registry; the test suite exercises exact versions (also written with a `v`
or `=` prefix), `>=` ranges and caret ranges. -/
inductive VersionRange where
  /-- no selector given -/
  | any : VersionRange
  /-- `1.2.3`, `v1.2.3`, `=1.2.3` -/
  | exact (v : SemVer) : VersionRange
  /-- `>=1.2.3` -/
  | gte (v : SemVer) : VersionRange
  /-- `^1.2.3` -/
  | caret (v : SemVer) : VersionRange
deriving DecidableEq, Repr

/-- Caret compatibility: same major when the major is positive; same
major+minor when the major is zero and the minor positive; exact otherwise. -/
def caretCompat (base v : SemVer) : Bool :=
  if 0 < base.major then base.major == v.major
  else if 0 < base.minor then base.major == v.major && base.minor == v.minor
  else base == v

/-- Normal semver satisfaction of a range by a version.  Modelled from the
spec (semver range satisfaction assumed as a library). -/
def satisfies (r : VersionRange) (v : SemVer) : Bool :=
  match r with
  | .any => true
  | .exact w => v == w
  | .gte w => SemVer.le w v
  | .caret w => SemVer.le w v && caretCompat w v

/-- The minimum version admitted by a range. -/
def minVersion (r : VersionRange) : SemVer :=
  match r with
  | .any => ⟨0, 0, 0⟩
  | .exact w => w
  | .gte w => w
  | .caret w => w

theorem minVersion_le_of_satisfies (r : VersionRange) (v : SemVer)
    (h : satisfies r v = true) : SemVer.le (minVersion r) v = true := by
  cases r with
  | any =>
    rw [minVersion, SemVer.le_iff]
    dsimp only
    omega
  | exact w =>
    rw [satisfies, beq_iff_eq] at h
    subst h
    exact SemVer.le_refl _
  | gte w => exact h
  | caret w =>
    rw [satisfies, Bool.and_eq_true] at h
    exact h.1

/-! ## The versioned store and the dependency graph

Modelled from the spec: the Version Manager owns the versioned store
(`.versions/`), the name-to-active-version map (the top-level installed
plugins, mirrored in the active view), the plugin-to-dependency-version
graph and reference counting. -/

/-- One dependency-graph edge: (plugin P at version PV, dependency name D)
bound to version DV of D. -/
structure Edge where
  plugin : String
  pluginVer : SemVer
  dep : String
  depVer : SemVer
deriving DecidableEq, Repr

/-- State of the versioned store.  `installed` is the top-level binding
(name, version) per plugin name — it backs both `list()` and the active
view; `versions` is the set of `.versions/` entries; `edges` is the
dependency graph.  Modelled from the spec. -/
structure PluginState where
  installed : List (String × SemVer)
  versions : List (String × SemVer)
  edges : List Edge
deriving DecidableEq, Repr

/-- Reference count of a (name, version): the number of graph edges whose
target is that pair, plus 1 when it is itself a top-level plugin.  Modelled
from the spec, invariant 3. -/
def refcount (st : PluginState) (nv : String × SemVer) : Nat :=
  (st.edges.filter (fun e => (e.dep, e.depVer) == nv)).length +
    (if nv ∈ st.installed then 1 else 0)

/-- One garbage-collection pass: drop every `.versions/` entry whose
reference count is zero, and every edge originating at a dropped entry. -/
def gcStep (st : PluginState) : PluginState :=
  { installed := st.installed
    versions := st.versions.filter (fun nv => refcount st nv != 0)
    edges := st.edges.filter
      (fun e => decide ((e.plugin, e.pluginVer) ∈ st.versions) &&
        refcount st (e.plugin, e.pluginVer) != 0) }

/-- Fuelled garbage collection: repeat `gcStep` until no entry has a zero
reference count.  Modelled from the spec: zero-reference versions are
deleted opportunistically. -/
def gcFuel : Nat → PluginState → PluginState
  | 0, st => st
  | n + 1, st =>
    if st.versions.all (fun nv => refcount st nv != 0) then st
    else gcFuel n (gcStep st)

/-- Garbage collection to a fixpoint (enough fuel is supplied for the store
to shrink to empty if needed). -/
def gc (st : PluginState) : PluginState :=
  gcFuel (st.versions.length + 1) st

/-- Version bound to a top-level plugin name, if any. -/
def lookupInstalled (st : PluginState) (name : String) : Option SemVer :=
  (st.installed.find? (fun p => p.1 == name)).map (fun p => p.2)

/-- `resolveFor`: the specific version bound to dependency `d` of plugin
`p` at version `pv` — the loader's version-resolution oracle.  Modelled
from the spec, section 4.D. -/
def resolveFor (st : PluginState) (p : String) (pv : SemVer) (d : String) :
    Option SemVer :=
  (st.edges.find? (fun e => e.plugin == p && e.pluginVer == pv && e.dep == d)).map
    (fun e => e.depVer)

/-- The flattened dependency bindings of plugin (name, v). -/
def depsOf (st : PluginState) (name : String) (v : SemVer) :
    List (String × SemVer) :=
  (st.edges.filter (fun e => e.plugin == name && e.pluginVer == v)).map
    (fun e => (e.dep, e.depVer))

/-- The value produced by `require(name)` on a top-level plugin, modelled
as the pair of the version whose files are loaded and the dependency
versions the loader binds while evaluating it.  Modelled from the spec:
the loader loads the active version and consults `resolveFor` for every
dependency. -/
def requireValue (st : PluginState) (name : String) :
    Option (SemVer × List (String × SemVer)) :=
  (lookupInstalled st name).map (fun v => (v, depsOf st name v))

/-- Ensure a dependency (name, version) is present: the versioned copy is
added when absent, and the name becomes a top-level plugin when no version
of it is installed yet.  Modelled from the spec, section 4.C step 5 (a
dependency already installed at a satisfying version is reused). -/
def installDep (st : PluginState) (d : String × SemVer) : PluginState :=
  { installed :=
      if st.installed.any (fun p => p.1 == d.1) then st.installed
      else d :: st.installed
    versions := if d ∈ st.versions then st.versions else d :: st.versions
    edges := st.edges }

/-- Install a plugin whose dependencies have already been resolved to
concrete versions (fetching and semver resolution are out of scope).
Modelled from the spec, sections 4.C and 4.D: dependencies are installed
first; a previous top-level version of the same name is unbound and its
outgoing edges unlinked; the new version enters `.versions/`, becomes the
top-level binding, and one graph edge is added per resolved dependency;
finally zero-reference versions are collected. -/
def installResolved (st0 : PluginState) (name : String) (ver : SemVer)
    (deps : List (String × SemVer)) : PluginState :=
  let st1 := deps.foldl installDep st0
  let st2 :=
    match lookupInstalled st1 name with
    | none => st1
    | some oldv =>
      { installed := st1.installed.filter (fun p => p.1 != name)
        versions := st1.versions
        edges := st1.edges.filter
          (fun e => !(e.plugin == name && e.pluginVer == oldv)) }
  gc
    { installed := (name, ver) :: st2.installed
      versions := if (name, ver) ∈ st2.versions then st2.versions
        else (name, ver) :: st2.versions
      edges := deps.map (fun d => Edge.mk name ver d.1 d.2) ++ st2.edges }

/-- `uninstall(name)`: remove the top-level binding only; unlink the
outgoing edges of the uninstalled node; collect zero-reference versions.
Modelled from the spec, section 4.D and design note: orphaned versions
persist until their refcount truly reaches zero. -/
def uninstall (st : PluginState) (name : String) : PluginState :=
  match lookupInstalled st name with
  | none => st
  | some v =>
    gc
      { installed := st.installed.filter (fun p => p.1 != name)
        versions := st.versions
        edges := st.edges.filter
          (fun e => !(e.plugin == name && e.pluginVer == v)) }

/-! ## Store lemmas -/

theorem refcount_ne_zero_of_installed (st : PluginState) (nv : String × SemVer)
    (h : nv ∈ st.installed) : refcount st nv ≠ 0 := by
  unfold refcount
  rw [if_pos h]
  omega

theorem refcount_ne_zero_of_edge (st : PluginState) (e : Edge)
    (h : e ∈ st.edges) : refcount st (e.dep, e.depVer) ≠ 0 := by
  unfold refcount
  have hmem : e ∈ st.edges.filter (fun x => (x.dep, x.depVer) == (e.dep, e.depVer)) :=
    List.mem_filter.mpr ⟨h, by simp⟩
  have hlen := List.length_pos_of_mem hmem
  omega

theorem gcFuel_installed (n : Nat) (st : PluginState) :
    (gcFuel n st).installed = st.installed := by
  induction n generalizing st with
  | zero => rfl
  | succ n ih =>
    unfold gcFuel
    split
    · rfl
    · rw [ih]
      rfl

theorem gcFuel_edges_sublist (n : Nat) (st : PluginState) :
    List.Sublist (gcFuel n st).edges st.edges := by
  induction n generalizing st with
  | zero => exact List.Sublist.refl _
  | succ n ih =>
    unfold gcFuel
    split
    · exact List.Sublist.refl _
    · exact (ih (gcStep st)).trans (List.filter_sublist _)

/-- Garbage collection never drops a top-level plugin's versioned copy, nor
an edge originating at a top-level plugin, nor the versioned copy such an
edge points to. -/
theorem gcFuel_preserves (n : Nat) (st : PluginState) (p d : String)
    (pv dv : SemVer)
    (hp : (p, pv) ∈ st.installed) (hpv : (p, pv) ∈ st.versions)
    (he : Edge.mk p pv d dv ∈ st.edges) (hdv : (d, dv) ∈ st.versions) :
    (p, pv) ∈ (gcFuel n st).installed ∧ (p, pv) ∈ (gcFuel n st).versions ∧
      Edge.mk p pv d dv ∈ (gcFuel n st).edges ∧
      (d, dv) ∈ (gcFuel n st).versions := by
  induction n generalizing st with
  | zero => exact ⟨hp, hpv, he, hdv⟩
  | succ n ih =>
    unfold gcFuel
    split
    · exact ⟨hp, hpv, he, hdv⟩
    · apply ih (gcStep st)
      · exact hp
      · exact List.mem_filter.mpr
          ⟨hpv, bne_iff_ne.mpr (refcount_ne_zero_of_installed st _ hp)⟩
      · refine List.mem_filter.mpr ⟨he, ?_⟩
        rw [Bool.and_eq_true]
        exact ⟨decide_eq_true hpv,
          bne_iff_ne.mpr (refcount_ne_zero_of_installed st _ hp)⟩
      · exact List.mem_filter.mpr
          ⟨hdv, bne_iff_ne.mpr (refcount_ne_zero_of_edge st _ he)⟩

/-- With enough fuel, garbage collection reaches a state in which no
versioned copy has a zero reference count. -/
theorem gcFuel_no_dead (n : Nat) (st : PluginState)
    (hn : st.versions.length < n) :
    ∀ nv ∈ (gcFuel n st).versions, refcount (gcFuel n st) nv ≠ 0 := by
  induction n generalizing st with
  | zero => exact absurd hn (Nat.not_lt_zero _)
  | succ n ih =>
    unfold gcFuel
    split
    · rename_i hall
      intro nv hmem
      rw [List.all_eq_true] at hall
      exact bne_iff_ne.mp (hall nv hmem)
    · rename_i hall
      apply ih (gcStep st)
      have hex : ∃ x ∈ st.versions, ¬(refcount st x != 0) = true := by
        by_contra hc
        push_neg at hc
        exact hall (List.all_eq_true.mpr hc)
      obtain ⟨x, hx, hpx⟩ := hex
      have hlt : ((gcStep st).versions).length < st.versions.length := by
        apply List.length_filter_lt_length_iff_exists.mpr
        exact ⟨x, hx, hpx⟩
      omega

/-- After every `gc`, every (name, version) with refcount 0 is absent from
`.versions/`. -/
theorem gc_no_dead (st : PluginState) :
    ∀ nv ∈ (gc st).versions, refcount (gc st) nv ≠ 0 :=
  gcFuel_no_dead _ st (Nat.lt_succ_self _)

/-- The resolution key of a graph edge: which plugin node asks for which
dependency name. -/
def edgeKey (e : Edge) : String × SemVer × String := (e.plugin, e.pluginVer, e.dep)

theorem find?_edge_eq_of_mem (l : List Edge) (p d : String) (pv dv : SemVer)
    (hnd : (l.map edgeKey).Nodup) (hmem : Edge.mk p pv d dv ∈ l) :
    l.find? (fun e => e.plugin == p && e.pluginVer == pv && e.dep == d) =
      some (Edge.mk p pv d dv) := by
  induction l with
  | nil => cases hmem
  | cons h t ih =>
    rw [List.map_cons, List.nodup_cons] at hnd
    rcases List.mem_cons.mp hmem with heq | hmem2
    · rw [← heq]
      exact List.find?_cons_of_pos _ (by simp)
    · have hkey : edgeKey (Edge.mk p pv d dv) ∈ t.map edgeKey :=
        List.mem_map_of_mem _ hmem2
      have hpred : (h.plugin == p && h.pluginVer == pv && h.dep == d) = false := by
        by_contra hc
        rw [Bool.not_eq_false, Bool.and_eq_true, Bool.and_eq_true] at hc
        obtain ⟨⟨h1, h2⟩, h3⟩ := hc
        rw [beq_iff_eq] at h1 h2 h3
        apply hnd.1
        have : edgeKey h = edgeKey (Edge.mk p pv d dv) := by
          rw [edgeKey, edgeKey, h1, h2, h3]
        rw [this]
        exact hkey
      rw [List.find?_cons_of_neg _ (by simp [hpred])]
      exact ih hnd.2 hmem2

/-- When the dependency graph has at most one binding per (plugin, version,
dependency name) key, membership of an edge determines `resolveFor`. -/
theorem resolveFor_eq_of_mem (st : PluginState) (p d : String) (pv dv : SemVer)
    (hnd : (st.edges.map edgeKey).Nodup) (hmem : Edge.mk p pv d dv ∈ st.edges) :
    resolveFor st p pv d = some dv := by
  rw [resolveFor, find?_edge_eq_of_mem st.edges p d pv dv hnd hmem]
  rfl

/-! ## Concrete scenario states (spec section 8, scenarios 4 and 5) -/

/-- Empty store. -/
def st0 : PluginState := ⟨[], [], []⟩

/-- After `install my-plugin-a@1.0.0`. -/
def st1 : PluginState := installResolved st0 "my-plugin-a" ⟨1, 0, 0⟩ []

/-- After additionally installing `my-plugin-b` which depends on
`my-plugin-a@1.0.0`. -/
def st2 : PluginState :=
  installResolved st1 "my-plugin-b" ⟨1, 0, 0⟩ [("my-plugin-a", ⟨1, 0, 0⟩)]

/-- After additionally installing `my-plugin-a@2.0.0` as a top-level
plugin. -/
def st3 : PluginState := installResolved st2 "my-plugin-a" ⟨2, 0, 0⟩ []

/-- After `uninstall("my-plugin-a")`. -/
def st4 : PluginState := uninstall st3 "my-plugin-a"

/-- Garbage collection keeps a top-level plugin, its versioned copy, its
outgoing edges and the versioned copies those edges point to. -/
theorem gc_keep (st : PluginState) (P D : String) (VP VD : SemVer)
    (hP : (P, VP) ∈ st.installed) (hPv : (P, VP) ∈ st.versions)
    (he : Edge.mk P VP D VD ∈ st.edges) (hDv : (D, VD) ∈ st.versions) :
    (P, VP) ∈ (gc st).installed ∧ (P, VP) ∈ (gc st).versions ∧
      Edge.mk P VP D VD ∈ (gc st).edges ∧ (D, VD) ∈ (gc st).versions :=
  gcFuel_preserves _ st P D VP VD hP hPv he hDv

/-- Claim C1: version pinning across updates.  Generally, for every plugin
P with a dependency D bound to version VD at install time, installing a new
top-level version of D leaves P's binding for D (the version `resolveFor`
returns, which the loader uses when code inside P requires D) unchanged,
keeps the bound versioned copy of D, and keeps P installed.  Concretely,
after installing my-plugin-a@1.0.0, then my-plugin-b depending on
my-plugin-a@1.0.0, then my-plugin-a@2.0.0, `require("my-plugin-a")` loads
version 2.0.0 (the active/highest view) while `require("my-plugin-b")`
loads my-plugin-b with my-plugin-a still bound at 1.0.0. -/
theorem claim_C1_version_pinning (st : PluginState) (P D : String)
    (VP VD newV : SemVer)
    (hwf : (st.edges.map edgeKey).Nodup)
    (hP : (P, VP) ∈ st.installed) (hPv : (P, VP) ∈ st.versions)
    (he : Edge.mk P VP D VD ∈ st.edges) (hDv : (D, VD) ∈ st.versions)
    (hne : P ≠ D) :
    (resolveFor (installResolved st D newV []) P VP D = some VD ∧
      (D, VD) ∈ (installResolved st D newV []).versions ∧
      (P, VP) ∈ (installResolved st D newV []).installed) ∧
      requireValue st3 "my-plugin-a" = some (⟨2, 0, 0⟩, []) ∧
      requireValue st3 "my-plugin-b" =
        some (⟨1, 0, 0⟩, [("my-plugin-a", ⟨1, 0, 0⟩)]) := by
  refine ⟨?_, by decide, by decide⟩
  rw [installResolved]
  simp only [List.foldl_nil, List.map_nil, List.nil_append]
  cases hl : lookupInstalled st D with
  | none =>
    simp only [hl]
    set pre : PluginState :=
      { installed := (D, newV) :: st.installed
        versions := if (D, newV) ∈ st.versions then st.versions
          else (D, newV) :: st.versions
        edges := st.edges } with hpre
    have hPv2 : (P, VP) ∈ pre.versions := by
      rw [hpre]; dsimp only; split
      · exact hPv
      · exact List.mem_cons_of_mem _ hPv
    have hDv2 : (D, VD) ∈ pre.versions := by
      rw [hpre]; dsimp only; split
      · exact hDv
      · exact List.mem_cons_of_mem _ hDv
    have hP2 : (P, VP) ∈ pre.installed := List.mem_cons_of_mem _ hP
    have he2 : Edge.mk P VP D VD ∈ pre.edges := he
    obtain ⟨k1, k2, k3, k4⟩ := gc_keep pre P D VP VD hP2 hPv2 he2 hDv2
    refine ⟨?_, k4, k1⟩
    apply resolveFor_eq_of_mem _ _ _ _ _ ?_ k3
    have hsub : List.Sublist (gc pre).edges st.edges := gcFuel_edges_sublist _ pre
    exact hwf.sublist (hsub.map edgeKey)
  | some oldv =>
    simp only [hl]
    set pre : PluginState :=
      { installed := (D, newV) :: st.installed.filter (fun p => p.1 != D)
        versions := if (D, newV) ∈ st.versions then st.versions
          else (D, newV) :: st.versions
        edges := st.edges.filter
          (fun e => !(e.plugin == D && e.pluginVer == oldv)) } with hpre
    have hPv2 : (P, VP) ∈ pre.versions := by
      rw [hpre]; dsimp only; split
      · exact hPv
      · exact List.mem_cons_of_mem _ hPv
    have hDv2 : (D, VD) ∈ pre.versions := by
      rw [hpre]; dsimp only; split
      · exact hDv
      · exact List.mem_cons_of_mem _ hDv
    have hP2 : (P, VP) ∈ pre.installed := by
      rw [hpre]; dsimp only
      apply List.mem_cons_of_mem
      exact List.mem_filter.mpr ⟨hP, bne_iff_ne.mpr hne⟩
    have he2 : Edge.mk P VP D VD ∈ pre.edges := by
      rw [hpre]; dsimp only
      refine List.mem_filter.mpr ⟨he, ?_⟩
      simp [beq_eq_false_iff_ne.mpr hne]
    obtain ⟨k1, k2, k3, k4⟩ := gc_keep pre P D VP VD hP2 hPv2 he2 hDv2
    refine ⟨?_, k4, k1⟩
    apply resolveFor_eq_of_mem _ _ _ _ _ ?_ k3
    have hsub : List.Sublist (gc pre).edges pre.edges := gcFuel_edges_sublist _ pre
    have hsub2 : List.Sublist pre.edges st.edges := by
      rw [hpre]; exact List.filter_sublist _
    exact hwf.sublist ((hsub.trans hsub2).map edgeKey)

/-- Witness for claim C1: instantiated on the concrete scenario — after the
three installs, my-plugin-b (installed when my-plugin-a@1.0.0 was current)
still resolves my-plugin-a to 1.0.0. -/
theorem claim_C1_version_pinning_witness :
    resolveFor (installResolved st2 "my-plugin-a" ⟨2, 0, 0⟩ []) "my-plugin-b"
      ⟨1, 0, 0⟩ "my-plugin-a" = some ⟨1, 0, 0⟩ :=
  (claim_C1_version_pinning st2 "my-plugin-b" "my-plugin-a" ⟨1, 0, 0⟩
    ⟨1, 0, 0⟩ ⟨2, 0, 0⟩ (by decide) (by decide) (by decide) (by decide)
    (by decide) (by decide)).1.1

/-- Claim C2: uninstall preserves linked dependency versions.  For every
state where plugin B is installed with a bound dependency on version VA of
name A, `uninstall(A)` removes every top-level binding of A (so A is gone
from `list()` and the active view) while the versioned copy (A, VA) and
B's binding to it are retained, so requiring B still resolves A to VA; and
after the uninstall every (name, version) with refcount 0 is absent from
`.versions/`.  Concretely, after `uninstall("my-plugin-a")` in the update
scenario, `require("my-plugin-b")` still loads with my-plugin-a bound at
1.0.0. -/
theorem claim_C2_uninstall_preserves_linked (st : PluginState) (A B : String)
    (VA VB VAtop : SemVer)
    (hwf : (st.edges.map edgeKey).Nodup)
    (hA : lookupInstalled st A = some VAtop)
    (hB : (B, VB) ∈ st.installed) (hBv : (B, VB) ∈ st.versions)
    (he : Edge.mk B VB A VA ∈ st.edges) (hAv : (A, VA) ∈ st.versions)
    (hne : B ≠ A) :
    ((∀ v, (A, v) ∉ (uninstall st A).installed) ∧
      (A, VA) ∈ (uninstall st A).versions ∧
      resolveFor (uninstall st A) B VB A = some VA ∧
      (B, VB) ∈ (uninstall st A).installed ∧
      (∀ nv ∈ (uninstall st A).versions, refcount (uninstall st A) nv ≠ 0)) ∧
      requireValue st4 "my-plugin-b" =
        some (⟨1, 0, 0⟩, [("my-plugin-a", ⟨1, 0, 0⟩)]) ∧
      lookupInstalled st4 "my-plugin-a" = none := by
  refine ⟨?_, by decide, by decide⟩
  rw [uninstall, hA]
  set pre : PluginState :=
    { installed := st.installed.filter (fun p => p.1 != A)
      versions := st.versions
      edges := st.edges.filter
        (fun e => !(e.plugin == A && e.pluginVer == VAtop)) } with hpre
  have hB2 : (B, VB) ∈ pre.installed := by
    rw [hpre]; exact List.mem_filter.mpr ⟨hB, bne_iff_ne.mpr hne⟩
  have he2 : Edge.mk B VB A VA ∈ pre.edges := by
    rw [hpre]
    refine List.mem_filter.mpr ⟨he, ?_⟩
    simp [beq_eq_false_iff_ne.mpr hne]
  obtain ⟨k1, k2, k3, k4⟩ := gc_keep pre B A VB VA hB2 hBv he2 hAv
  refine ⟨?_, k4, ?_, k1, gc_no_dead pre⟩
  · intro v hv
    have hinst : (gc pre).installed = pre.installed := gcFuel_installed _ _
    rw [hinst] at hv
    have := (List.mem_filter.mp hv).2
    simp at this
  · apply resolveFor_eq_of_mem _ _ _ _ _ ?_ k3
    have hsub : List.Sublist (gc pre).edges pre.edges := gcFuel_edges_sublist _ pre
    have hsub2 : List.Sublist pre.edges st.edges := by
      rw [hpre]; exact List.filter_sublist _
    exact hwf.sublist ((hsub.trans hsub2).map edgeKey)

/-- Witness for claim C2: instantiated on the concrete scenario — after
uninstalling my-plugin-a, the copy my-plugin-a@1.0.0 is retained in
`.versions/` and my-plugin-b still resolves it. -/
theorem claim_C2_uninstall_preserves_linked_witness :
    ("my-plugin-a", (⟨1, 0, 0⟩ : SemVer)) ∈ (uninstall st3 "my-plugin-a").versions ∧
      resolveFor (uninstall st3 "my-plugin-a") "my-plugin-b" ⟨1, 0, 0⟩
        "my-plugin-a" = some ⟨1, 0, 0⟩ :=
  ⟨(claim_C2_uninstall_preserves_linked st3 "my-plugin-a" "my-plugin-b"
      ⟨1, 0, 0⟩ ⟨1, 0, 0⟩ ⟨2, 0, 0⟩ (by decide) (by decide) (by decide)
      (by decide) (by decide) (by decide) (by decide)).1.2.1,
    (claim_C2_uninstall_preserves_linked st3 "my-plugin-a" "my-plugin-b"
      ⟨1, 0, 0⟩ ⟨1, 0, 0⟩ ⟨2, 0, 0⟩ (by decide) (by decide) (by decide)
      (by decide) (by decide) (by decide) (by decide)).1.2.2.1⟩

/-! ## `alreadyInstalled` (claim C5) -/

/-- Matching mode of `alreadyInstalled`. -/
inductive SatisfyMode where
  | satisfies : SatisfyMode
  | satisfiesOrGreater : SatisfyMode
deriving DecidableEq, Repr

/-- `alreadyInstalled(name, selector, mode)`: return the installed version
of `name` when it satisfies the selector under normal semver, or — in
`satisfiesOrGreater` mode — also when it is at least the minimum version of
the selector.  Modelled from the spec, sections 4.F and 8. -/
def alreadyInstalled (st : PluginState) (name : String) (r : VersionRange)
    (mode : SatisfyMode) : Option SemVer :=
  (st.installed.find? (fun p => p.1 == name)).bind fun p =>
    match mode with
    | .satisfies => if satisfies r p.2 then some p.2 else none
    | .satisfiesOrGreater =>
      if satisfies r p.2 || SemVer.le (minVersion r) p.2 then some p.2
      else none

/-- In a list with pairwise-distinct first components, two members with the
same first component are equal. -/
theorem fst_nodup_eq (l : List (String × SemVer))
    (hnd : (l.map Prod.fst).Nodup) (a b : String × SemVer)
    (ha : a ∈ l) (hb : b ∈ l) (hab : a.1 = b.1) : a = b := by
  induction l with
  | nil => cases ha
  | cons h t ih =>
    rw [List.map_cons, List.nodup_cons] at hnd
    rcases List.mem_cons.mp ha with rfl | ha2
    · rcases List.mem_cons.mp hb with rfl | hb2
      · rfl
      · exact absurd (hab ▸ List.mem_map_of_mem Prod.fst hb2) hnd.1
    · rcases List.mem_cons.mp hb with rfl | hb2
      · exact absurd (hab ▸ List.mem_map_of_mem Prod.fst ha2) hnd.1
      · exact ih hnd.2 ha2 hb2

/-- A store with a single installed plugin moment@2.18.1, as in the
`alreadyInstalled` tests. -/
def stMoment : PluginState :=
  ⟨[("moment", ⟨2, 18, 1⟩)], [("moment", ⟨2, 18, 1⟩)], []⟩

/-- Claim C5: `alreadyInstalled` semantics.  Under normal mode the
PluginInfo is returned exactly when an installed version of the name
satisfies the selector; under `satisfiesOrGreater` it is additionally
returned when an installed version is at least the minimum version of the
selector, and it is still `none` when every installed version is below that
minimum. -/
theorem claim_C5_alreadyInstalled (st : PluginState) (name : String) (r : VersionRange)
    (hnd : (st.installed.map Prod.fst).Nodup) :
    ((alreadyInstalled st name r .satisfies).isSome ↔
      ∃ v, (name, v) ∈ st.installed ∧ satisfies r v = true) ∧
      ((alreadyInstalled st name r .satisfiesOrGreater).isSome ↔
        ∃ v, (name, v) ∈ st.installed ∧
          (satisfies r v = true ∨ SemVer.le (minVersion r) v = true)) ∧
      ((∀ v, (name, v) ∈ st.installed → SemVer.le (minVersion r) v = false) →
        alreadyInstalled st name r .satisfiesOrGreater = none) := by
  have huniq : ∀ p, p ∈ st.installed → p.1 = name →
      ∀ v, (name, v) ∈ st.installed → v = p.2 := by
    intro p hp hpn v hv
    have := fst_nodup_eq st.installed hnd (name, v) p hv hp (by rw [hpn])
    rw [← this]
  constructor
  · rw [alreadyInstalled]
    cases hf : st.installed.find? (fun p => p.1 == name) with
    | none =>
      simp only [Option.none_bind, Option.isSome_none]
      rw [List.find?_eq_none] at hf
      constructor
      · intro h; cases h
      · rintro ⟨v, hv, _⟩
        exact absurd (by simp : (((name, v) : String × SemVer).1 == name) = true)
          (hf _ hv)
    | some p =>
      have hpn : p.1 = name := by
        have := List.find?_some hf
        rwa [beq_iff_eq] at this
      have hpm : p ∈ st.installed := List.mem_of_find?_eq_some hf
      simp only [Option.some_bind]
      constructor
      · intro h
        split at h
        · rename_i hs
          exact ⟨p.2, by rw [← hpn]; exact hpm, hs⟩
        · cases h
      · rintro ⟨v, hv, hs⟩
        have := huniq p hpm hpn v hv
        subst this
        rw [if_pos hs]
        rfl
  constructor
  · rw [alreadyInstalled]
    cases hf : st.installed.find? (fun p => p.1 == name) with
    | none =>
      simp only [Option.none_bind, Option.isSome_none]
      rw [List.find?_eq_none] at hf
      constructor
      · intro h; cases h
      · rintro ⟨v, hv, _⟩
        exact absurd (by simp : (((name, v) : String × SemVer).1 == name) = true)
          (hf _ hv)
    | some p =>
      have hpn : p.1 = name := by
        have := List.find?_some hf
        rwa [beq_iff_eq] at this
      have hpm : p ∈ st.installed := List.mem_of_find?_eq_some hf
      simp only [Option.some_bind]
      constructor
      · intro h
        split at h
        · rename_i hs
          rw [Bool.or_eq_true] at hs
          exact ⟨p.2, by rw [← hpn]; exact hpm, hs⟩
        · cases h
      · rintro ⟨v, hv, hs⟩
        have := huniq p hpm hpn v hv
        subst this
        rw [if_pos (Bool.or_eq_true _ _ |>.mpr hs)]
        rfl
  · intro hall
    rw [alreadyInstalled]
    cases hf : st.installed.find? (fun p => p.1 == name) with
    | none => rfl
    | some p =>
      have hpn : p.1 = name := by
        have := List.find?_some hf
        rwa [beq_iff_eq] at this
      have hpm : p ∈ st.installed := List.mem_of_find?_eq_some hf
      have hmem : (name, p.2) ∈ st.installed := by rw [← hpn]; exact hpm
      have hlow := hall p.2 hmem
      simp only [Option.some_bind]
      rw [if_neg]
      rw [Bool.or_eq_true]
      rintro (hs | hge)
      · rw [minVersion_le_of_satisfies r p.2 hs] at hlow
        cases hlow
      · rw [hge] at hlow
        cases hlow

/-- Witness for claim C5 on a store holding moment@2.18.1: `^2.0.0` is
satisfied normally; `2.17.0` is accepted in `satisfiesOrGreater` mode; and
`^3.0.0` is rejected even in `satisfiesOrGreater` mode. -/
theorem claim_C5_alreadyInstalled_witness :
    (alreadyInstalled stMoment "moment" (.caret ⟨2, 0, 0⟩) .satisfies).isSome ∧
      (alreadyInstalled stMoment "moment" (.exact ⟨2, 17, 0⟩)
        .satisfiesOrGreater).isSome ∧
      alreadyInstalled stMoment "moment" (.caret ⟨3, 0, 0⟩)
        .satisfiesOrGreater = none :=
  ⟨(claim_C5_alreadyInstalled stMoment "moment" (.caret ⟨2, 0, 0⟩)
      (by decide)).1.mpr ⟨⟨2, 18, 1⟩, by decide, by decide⟩,
    (claim_C5_alreadyInstalled stMoment "moment" (.exact ⟨2, 17, 0⟩)
      (by decide)).2.1.mpr ⟨⟨2, 18, 1⟩, by decide, Or.inr (by decide)⟩,
    (claim_C5_alreadyInstalled stMoment "moment" (.caret ⟨3, 0, 0⟩)
      (by decide)).2.2 (by
        intro v hv
        simp only [stMoment, List.mem_singleton, Prod.mk.injEq] at hv
        rw [hv.2]
        decide)⟩

/-! ## Install idempotence without force (claim C3) -/

namespace InstallIdem

/-- Installer and loader state for one plugin name: the installed version,
the cached export reference of the loaded plugin (if any), an allocator for
fresh export-reference identities, and counters of network accesses and
file writes performed so far. -/
structure MState where
  installedVer : Option SemVer
  cache : Option Nat
  nextRef : Nat
  netOps : Nat
  fileWrites : Nat
deriving DecidableEq, Repr

/-- `installFromPath` for a package at version `ver`.  Modelled from the
spec, section 4.C step 2: if `force` is false and a satisfying version is
already installed for the top-level name, the existing PluginInfo is
returned with no network access and no file writes; otherwise the package
is written anew and the loader's cached export is dropped. -/
def installFromPath (st : MState) (ver : SemVer) (force : Bool) : MState :=
  if !force && st.installedVer == some ver then st
  else
    { installedVer := some ver
      cache := none
      nextRef := st.nextRef
      netOps := st.netOps
      fileWrites := st.fileWrites + 1 }

/-- `require` of the plugin: return the cached export reference, or load
the plugin, allocating a fresh reference identity, and cache it.  Modelled
from the spec, section 4.E export cache. -/
def requireRef (st : MState) : Option (Nat × MState) :=
  match st.cache with
  | some r => some (r, st)
  | none =>
    match st.installedVer with
    | none => none
    | some _ =>
      some (st.nextRef,
        { st with cache := some st.nextRef, nextRef := st.nextRef + 1 })

end InstallIdem

/-! ## No negative caching in the loader (claim C4) -/

namespace LoaderCache

/-- Loader state: the export cache, keyed by the resolved file path. -/
structure LState where
  cache : List (String × Nat)
deriving DecidableEq, Repr

/-- One `require(p)` call, where `load` is the outcome of evaluating the
module file when it is actually run.  A cache hit returns the cached
exports without re-running the load; a successful load caches its exports
keyed by the resolved path; a failing load propagates the error and caches
nothing.  Modelled from the spec, section 4.E export cache. -/
def requireOnce (load : Except String Nat) (st : LState) (p : String) :
    Except String Nat × LState :=
  match st.cache.find? (fun kv => kv.1 == p) with
  | some kv => (.ok kv.2, st)
  | none =>
    match load with
    | .error e => (.error e, st)
    | .ok v => (.ok v, ⟨(p, v) :: st.cache⟩)

/-- N consecutive `require(p)` calls, threading the loader state and
collecting the results. -/
def requireTimes (load : Except String Nat) (st : LState) (p : String) :
    Nat → List (Except String Nat) × LState
  | 0 => ([], st)
  | n + 1 =>
    let r := requireOnce load st p
    let rest := requireTimes load r.2 p n
    (r.1 :: rest.1, rest.2)

end LoaderCache

/-! ## Registry cache modes (claim C6) -/

namespace NpmInstall

/-- `npmInstallMode`. -/
inductive Mode where
  | useCache : Mode
  | noCache : Mode
deriving DecidableEq, Repr

/-- `installFromNpm`, modelled from the spec, section 4.B: under `useCache`,
when an explicit selector is given and a satisfying version is already
present in `.versions/` (the `cached` list), the cached copy is used with
no network access; otherwise — always under `noCache`, and always when no
explicit selector is given so "latest" must be resolved — the request is
resolved against the registry, which fails when the registry is
unreachable.  The result carries the installed version and whether the
network was used; `remote` is the version the registry would resolve. -/
def installFromNpm (mode : Mode) (registryUp : Bool) (cached : List SemVer)
    (remote : SemVer) (range : Option VersionRange) :
    Except String (SemVer × Bool) :=
  let fromRegistry : Except String (SemVer × Bool) :=
    if registryUp then .ok (remote, true) else .error "FetchFailed"
  match mode, range with
  | .useCache, some r =>
    match cached.find? (fun v => satisfies r v) with
    | some v => .ok (v, false)
    | none => fromRegistry
  | .useCache, none => fromRegistry
  | .noCache, _ => fromRegistry

end NpmInstall

/-! ## Sandbox isolation (claim C7) -/

namespace SandboxIso

/-- An evaluation context: the `process.env` map and the `global` object of
either the host or a plugin's sandbox. -/
structure Ctx where
  env : List (String × String)
  glob : List (String × String)
deriving DecidableEq, Repr

/-- A mutation performed by code running inside a plugin. -/
inductive POp where
  | setEnv (k v : String) : POp
  | setGlobal (k v : String) : POp
deriving DecidableEq, Repr

/-- The host context together with the plugin's isolated context. -/
structure World where
  host : Ctx
  plugin : Ctx
deriving DecidableEq, Repr

/-- Read a key from an env/global map (later writes shadow earlier ones). -/
def readVar (l : List (String × String)) (k : String) : Option String :=
  (l.find? (fun p => p.1 == k)).map (fun p => p.2)

/-- Plugin code writes to the plugin's own context, never to the host's.
Modelled from the spec, section 4.E sandbox. -/
def applyOp (w : World) : POp → World
  | .setEnv k v =>
    { w with plugin := { w.plugin with env := (k, v) :: w.plugin.env } }
  | .setGlobal k v =>
    { w with plugin := { w.plugin with glob := (k, v) :: w.plugin.glob } }

/-- Build the per-plugin evaluation context: the sandbox template when set,
else a shallow copy of the host context.  Modelled from the spec, section
4.E sandbox. -/
def initWorld (host : Ctx) (template : Option Ctx) : World :=
  { host := host, plugin := template.getD host }

/-- Run plugin code (a sequence of mutations) in the plugin's context. -/
def runPlugin (host : Ctx) (template : Option Ctx) (ops : List POp) : World :=
  ops.foldl applyOp (initWorld host template)

end SandboxIso

/-! ## Store lock (claim C8) -/

namespace StoreLock

/-- Sentinel-file lock over the plugin directory: the creation time of the
sentinel file, when one is present. -/
structure LockState where
  sentinel : Option Nat
deriving DecidableEq, Repr

/-- Try to take the store lock at time `now`: free when no sentinel exists;
stolen when the sentinel is older than `lockStale`; otherwise the caller
gets `LockBusy`.  Modelled from the spec, sections 4.A and 5. -/
def tryAcquire (ls : LockState) (now lockStale : Nat) :
    Except String LockState :=
  match ls.sentinel with
  | none => .ok { sentinel := some now }
  | some t =>
    if lockStale < now - t then .ok { sentinel := some now }
    else .error "LockBusy"

/-- An install attempt: acquire the lock, mutate the store, release.  A
failed acquisition surfaces immediately as `LockBusy` — the call is not
queued.  Modelled from the spec, section 5 ordering guarantees. -/
def installAttempt (ls : LockState) (now lockStale : Nat) :
    Except String LockState :=
  match tryAcquire ls now lockStale with
  | .error e => .error e
  | .ok _ => .ok { sentinel := none }

end StoreLock

/-! ## HTTP helpers, embedded from `src/httpUtils.ts` (claims C9, C10) -/

namespace HttpUtils

/-- An HTTP response as seen by the helpers in `httpUtils.ts`: the `ok`
flag, the status, the status text and a body. -/
structure FetchResponse (α : Type) where
  ok : Bool
  status : Nat
  statusText : String
  body : α
deriving DecidableEq, Repr

/-- The message of the error thrown on a non-ok response. -/
def responseError (status : Nat) (statusText : String) : String :=
  "Response error " ++ toString status ++ " " ++ statusText

/-- `httpJsonGet` from `httpUtils.ts`: throw on a non-ok response, else
return the parsed JSON body. -/
def httpJsonGet {α : Type} (res : FetchResponse α) : Except String α :=
  if !res.ok then .error (responseError res.status res.statusText)
  else .ok res.body

/-- An event of the response body stream piped into the destination file. -/
inductive StreamEvent where
  | chunk (data : String) : StreamEvent
  | fail (msg : String) : StreamEvent
deriving DecidableEq, Repr

/-- Pipe the body stream into the destination file.  Chunks append to the
file.  A stream error closes the file stream, removes the destination file
when it exists, and rejects with the error.  Reaching the end of the
stream fires `finish`, which closes the file stream and resolves.  The
second component is the destination file content afterwards (`none` means
the file is absent).  Embedded from `httpUtils.ts`. -/
def pipeToFile : List StreamEvent → String → Except String Unit × Option String
  | [], acc => (.ok (), some acc)
  | .chunk d :: rest, acc => pipeToFile rest (acc ++ d)
  | .fail e :: _, _ => (.error e, none)

/-- `httpDownload` from `httpUtils.ts`: throw on a non-ok response before
touching the destination file; on an ok response create the destination
file and pipe the body into it. -/
def httpDownload (res : FetchResponse (List StreamEvent))
    (dest0 : Option String) : Except String Unit × Option String :=
  if !res.ok then (.error (responseError res.status res.statusText), dest0)
  else pipeToFile res.body ""

/-- The body stream holds no error event. -/
def allChunks : List StreamEvent → Bool
  | [] => true
  | .chunk _ :: rest => allChunks rest
  | .fail _ :: _ => false

/-- The data carried by the chunks of the body stream. -/
def chunksData : List StreamEvent → String
  | [] => ""
  | .chunk d :: rest => d ++ chunksData rest
  | .fail _ :: rest => chunksData rest

end HttpUtils

/-! ## Claim theorems C3, C4, C6, C7, C8, C9, C10 -/

/-- Claim C3: install idempotence without force.  When the satisfying
version is already installed, a second `installFromPath` with `force`
false returns the existing state unchanged — in particular no network
access and no file writes — so `require` afterwards yields the identical
export reference; with `force` true the plugin is reinstalled, its cached
export dropped, and `require` yields a different reference. -/
theorem claim_C3_install_idempotence (st : InstallIdem.MState) (v : SemVer)
    (hv : st.installedVer = some v)
    (hwf : ∀ c, st.cache = some c → c < st.nextRef) :
    InstallIdem.installFromPath st v false = st ∧
      ∀ r st1, InstallIdem.requireRef st = some (r, st1) →
        ∃ r2 st2,
          InstallIdem.requireRef (InstallIdem.installFromPath st1 v true) =
            some (r2, st2) ∧ r2 ≠ r := by
  have hnof : InstallIdem.installFromPath st v false = st := by
    rw [InstallIdem.installFromPath]
    simp [hv]
  refine ⟨hnof, ?_⟩
  intro r st1 hreq
  rw [InstallIdem.requireRef] at hreq
  cases hc : st.cache with
  | some c =>
    rw [hc] at hreq
    simp only [Option.some.injEq, Prod.mk.injEq] at hreq
    obtain ⟨hr, hst⟩ := hreq
    subst hr; subst hst
    refine ⟨st.nextRef, _, rfl, ?_⟩
    exact Nat.ne_of_gt (hwf c hc)
  | none =>
    rw [hc, hv] at hreq
    simp only [Option.some.injEq, Prod.mk.injEq] at hreq
    obtain ⟨hr, hst⟩ := hreq
    subst hr; subst hst
    refine ⟨st.nextRef + 1, _, rfl, ?_⟩
    omega

/-- A state with one plugin installed at 1.0.0 and nothing loaded yet. -/
def w0 : InstallIdem.MState := ⟨some ⟨1, 0, 0⟩, none, 0, 0, 0⟩

/-- `w0` after a first `require`, which allocated export reference 0. -/
def w1 : InstallIdem.MState := ⟨some ⟨1, 0, 0⟩, some 0, 1, 0, 0⟩

/-- Witness for claim C3: on the concrete one-plugin state, reinstalling
without force is the identity, and a forced reinstall makes the next
`require` return a reference different from the first one. -/
theorem claim_C3_install_idempotence_witness :
    InstallIdem.installFromPath w0 ⟨1, 0, 0⟩ false = w0 ∧
      ∃ r2 st2,
        InstallIdem.requireRef (InstallIdem.installFromPath w1 ⟨1, 0, 0⟩ true) =
          some (r2, st2) ∧ r2 ≠ 0 :=
  ⟨(claim_C3_install_idempotence w0 ⟨1, 0, 0⟩ rfl (fun _ h => nomatch h)).1,
    (claim_C3_install_idempotence w0 ⟨1, 0, 0⟩ rfl (fun _ h => nomatch h)).2
      0 w1 rfl⟩

/-- Claim C4: no negative caching in the loader.  From a state where the
path is not cached, N consecutive `require` calls against a module whose
load fails all re-run the load and fail with the same error, leaving the
cache untouched; while a successful load caches its exports keyed by the
path, so the next `require` returns the cached value without re-running
any load. -/
theorem claim_C4_no_negative_caching (st : LoaderCache.LState) (p e : String)
    (v : Nat) (n : Nat)
    (hmiss : st.cache.find? (fun kv => kv.1 == p) = none) :
    LoaderCache.requireTimes (.error e) st p n =
      (List.replicate n (.error e), st) ∧
      ∀ load2, LoaderCache.requireOnce load2
          (LoaderCache.requireOnce (.ok v) st p).2 p =
        (.ok v, (LoaderCache.requireOnce (.ok v) st p).2) := by
  have honce : LoaderCache.requireOnce (.error e) st p = (.error e, st) := by
    rw [LoaderCache.requireOnce, hmiss]
  constructor
  · induction n with
    | zero => rfl
    | succ n ih =>
      rw [LoaderCache.requireTimes]
      rw [honce]
      simp only []
      rw [ih]
      rfl
  · intro load2
    have hok : LoaderCache.requireOnce (.ok v) st p =
        (.ok v, ⟨(p, v) :: st.cache⟩) := by
      rw [LoaderCache.requireOnce, hmiss]
    rw [hok]
    simp [LoaderCache.requireOnce]

/-- Witness for claim C4: starting from an empty cache, ten consecutive
`require("my-code-plugin")` calls against a failing module all fail with
the load error and leave the cache empty. -/
theorem claim_C4_no_negative_caching_witness :
    LoaderCache.requireTimes (.error "cannot load") ⟨[]⟩ "my-code-plugin" 10 =
      (List.replicate 10 (.error "cannot load"), ⟨[]⟩) :=
  (claim_C4_no_negative_caching ⟨[]⟩ "my-code-plugin" "cannot load" 0 10
    rfl).1

/-- Claim C6: registry cache modes.  Under the default `useCache` mode with
an explicit selector, `installFromNpm` succeeds from the `.versions/` cache
without contacting the registry whenever a satisfying version is cached —
even when the registry is unreachable; under `noCache` the request always
resolves against the registry and fails when it is unreachable (and uses
the network when it is reachable); and under `useCache` with no explicit
selector ("latest"), an unreachable registry also makes the install
fail. -/
theorem claim_C6_registry_cache_modes (cached : List SemVer)
    (remote : SemVer) (r : VersionRange)
    (hhit : ∃ v ∈ cached, satisfies r v = true) :
    (∃ v, NpmInstall.installFromNpm .useCache false cached remote (some r) =
        .ok (v, false) ∧ satisfies r v = true) ∧
      NpmInstall.installFromNpm .noCache false cached remote (some r) =
        .error "FetchFailed" ∧
      NpmInstall.installFromNpm .noCache true cached remote (some r) =
        .ok (remote, true) ∧
      NpmInstall.installFromNpm .useCache false cached remote none =
        .error "FetchFailed" := by
  refine ⟨?_, rfl, rfl, rfl⟩
  obtain ⟨v, hv, hs⟩ := hhit
  have hsome : (cached.find? (fun v => satisfies r v)).isSome :=
    List.find?_isSome.mpr ⟨v, hv, hs⟩
  cases hf : cached.find? (fun v => satisfies r v) with
  | none => rw [hf] at hsome; cases hsome
  | some w =>
    refine ⟨w, ?_, List.find?_some hf⟩
    rw [NpmInstall.installFromNpm]
    simp only [hf]

/-- Witness for claim C6: with cookie@0.3.1 cached, installing 0.3.1 with
the registry down succeeds from the cache without network, while `noCache`
fails. -/
theorem claim_C6_registry_cache_modes_witness :
    (∃ v, NpmInstall.installFromNpm .useCache false [⟨0, 3, 1⟩] ⟨0, 3, 1⟩
        (some (.exact ⟨0, 3, 1⟩)) = .ok (v, false) ∧
        satisfies (.exact ⟨0, 3, 1⟩) v = true) ∧
      NpmInstall.installFromNpm .noCache false [⟨0, 3, 1⟩] ⟨0, 3, 1⟩
        (some (.exact ⟨0, 3, 1⟩)) = .error "FetchFailed" :=
  ⟨(claim_C6_registry_cache_modes [⟨0, 3, 1⟩] ⟨0, 3, 1⟩ (.exact ⟨0, 3, 1⟩)
      ⟨⟨0, 3, 1⟩, by decide, by decide⟩).1,
    (claim_C6_registry_cache_modes [⟨0, 3, 1⟩] ⟨0, 3, 1⟩ (.exact ⟨0, 3, 1⟩)
      ⟨⟨0, 3, 1⟩, by decide, by decide⟩).2.1⟩

/-- Running plugin code never changes the host context. -/
theorem sandbox_host_frame (w : SandboxIso.World) (ops : List SandboxIso.POp) :
    (ops.foldl SandboxIso.applyOp w).host = w.host := by
  induction ops generalizing w with
  | nil => rfl
  | cons op rest ih =>
    rw [List.foldl_cons, ih]
    cases op <;> rfl

/-- Claim C7: sandbox isolation.  For every plugin run, the host context is
unchanged by arbitrary plugin code — the host never observes env keys set
inside the plugin; code inside the plugin reads the sandbox template's env
values; and a mutation of `process.env` inside the plugin is visible to the
plugin itself. -/
theorem claim_C7_sandbox_isolation (host t : SandboxIso.Ctx)
    (tmpl : Option SandboxIso.Ctx) (ops : List SandboxIso.POp)
    (k kk v : String) :
    (SandboxIso.runPlugin host tmpl ops).host = host ∧
      SandboxIso.readVar (SandboxIso.runPlugin host tmpl ops).host.env k =
        SandboxIso.readVar host.env k ∧
      SandboxIso.readVar (SandboxIso.runPlugin host (some t) []).plugin.env k =
        SandboxIso.readVar t.env k ∧
      SandboxIso.readVar
        (SandboxIso.runPlugin host tmpl
          [SandboxIso.POp.setEnv kk v]).plugin.env kk = some v := by
  have hh : (SandboxIso.runPlugin host tmpl ops).host = host :=
    sandbox_host_frame _ ops
  refine ⟨hh, ?_, rfl, ?_⟩
  · rw [hh]
  · rw [SandboxIso.runPlugin]
    simp [SandboxIso.applyOp, SandboxIso.readVar]

/-- Claim C8: store lock exclusion and staleness.  While the sentinel is
fresh (not older than `lockStale`), a concurrent install attempt fails with
`LockBusy` instead of being queued; once the sentinel is older than
`lockStale` it is treated as abandoned, so a fresh install steals the lock
and succeeds; with no sentinel the install also succeeds. -/
theorem claim_C8_lock_busy_and_stale (t now lockStale : Nat) :
    (now - t ≤ lockStale →
      StoreLock.installAttempt ⟨some t⟩ now lockStale = .error "LockBusy") ∧
      (lockStale < now - t →
        StoreLock.installAttempt ⟨some t⟩ now lockStale = .ok ⟨none⟩) ∧
      StoreLock.installAttempt ⟨none⟩ now lockStale = .ok ⟨none⟩ := by
  refine ⟨?_, ?_, rfl⟩
  · intro hfresh
    rw [StoreLock.installAttempt, StoreLock.tryAcquire]
    simp only []
    rw [if_neg (by omega)]
  · intro hstale
    rw [StoreLock.installAttempt, StoreLock.tryAcquire]
    simp only []
    rw [if_pos hstale]

/-- Witness for claim C8: a sentinel created at time 100 blocks an install
at time 150 with a 1000 ms staleness threshold, and is stolen by an install
at time 1200. -/
theorem claim_C8_lock_busy_and_stale_witness :
    StoreLock.installAttempt ⟨some 100⟩ 150 1000 = .error "LockBusy" ∧
      StoreLock.installAttempt ⟨some 100⟩ 1200 1000 = .ok ⟨none⟩ :=
  ⟨(claim_C8_lock_busy_and_stale 100 150 1000).1 (by decide),
    (claim_C8_lock_busy_and_stale 100 1200 1000).2.1 (by decide)⟩

/-- Claim C9: `httpJsonGet` and `httpDownload` throw exactly when the
response is not ok, with message "Response error <status> <statusText>";
on an ok response `httpJsonGet` returns the parsed body and `httpDownload`
proceeds to pipe the body into the destination file. -/
theorem claim_C9_http_response_gating {α : Type} (res : HttpUtils.FetchResponse α)
    (resD : HttpUtils.FetchResponse (List HttpUtils.StreamEvent))
    (dest0 : Option String) :
    ((∃ a, HttpUtils.httpJsonGet res = .ok a) ↔ res.ok = true) ∧
      (res.ok = false →
        HttpUtils.httpJsonGet res =
          .error (HttpUtils.responseError res.status res.statusText)) ∧
      (res.ok = true → HttpUtils.httpJsonGet res = .ok res.body) ∧
      (resD.ok = false →
        HttpUtils.httpDownload resD dest0 =
          (.error (HttpUtils.responseError resD.status resD.statusText),
            dest0)) ∧
      (resD.ok = true →
        HttpUtils.httpDownload resD dest0 =
          HttpUtils.pipeToFile resD.body "") := by
  refine ⟨?_, ?_, ?_, ?_, ?_⟩
  · constructor
    · rintro ⟨a, ha⟩
      by_contra hok
      rw [Bool.not_eq_true] at hok
      rw [HttpUtils.httpJsonGet, hok] at ha
      cases ha
    · intro hok
      exact ⟨res.body, by rw [HttpUtils.httpJsonGet, hok]; rfl⟩
  · intro hok
    rw [HttpUtils.httpJsonGet, hok]
    rfl
  · intro hok
    rw [HttpUtils.httpJsonGet, hok]
    rfl
  · intro hok
    rw [HttpUtils.httpDownload, hok]
    rfl
  · intro hok
    rw [HttpUtils.httpDownload, hok]
    rfl

/-- Witness for claim C9: a 404 response makes `httpJsonGet` throw with the
exact "Response error 404 Not Found" message; a 200 response returns the
body. -/
theorem claim_C9_http_response_gating_witness :
    HttpUtils.httpJsonGet (HttpUtils.FetchResponse.mk false 404 "Not Found"
        (0 : Nat)) = .error "Response error 404 Not Found" ∧
      HttpUtils.httpJsonGet (HttpUtils.FetchResponse.mk true 200 "OK"
        (7 : Nat)) = .ok 7 :=
  ⟨((claim_C9_http_response_gating
      (HttpUtils.FetchResponse.mk false 404 "Not Found" (0 : Nat))
      (HttpUtils.FetchResponse.mk true 200 "OK" []) none).2.1 rfl).trans
      rfl,
    (claim_C9_http_response_gating
      (HttpUtils.FetchResponse.mk true 200 "OK" (7 : Nat))
      (HttpUtils.FetchResponse.mk true 200 "OK" []) none).2.2.1 rfl⟩

/-- Piping a stream whose first error event follows some chunks rejects
with that error and leaves no destination file. -/
theorem pipeToFile_fail (pre rest : List HttpUtils.StreamEvent) (e : String)
    (hpre : HttpUtils.allChunks pre = true) (acc : String) :
    HttpUtils.pipeToFile (pre ++ .fail e :: rest) acc = (.error e, none) := by
  induction pre generalizing acc with
  | nil => rfl
  | cons h t ih =>
    cases h with
    | chunk d =>
      rw [List.cons_append, HttpUtils.pipeToFile]
      exact ih (by rwa [HttpUtils.allChunks] at hpre) _
    | fail m => rw [HttpUtils.allChunks] at hpre; cases hpre

/-- Piping an error-free stream resolves and leaves the concatenated chunk
data in the destination file. -/
theorem pipeToFile_ok (body : List HttpUtils.StreamEvent)
    (hpre : HttpUtils.allChunks body = true) (acc : String) :
    HttpUtils.pipeToFile body acc =
      (.ok (), some (acc ++ HttpUtils.chunksData body)) := by
  induction body generalizing acc with
  | nil => rw [HttpUtils.pipeToFile, HttpUtils.chunksData]; simp
  | cons h t ih =>
    cases h with
    | chunk d =>
      rw [HttpUtils.pipeToFile, HttpUtils.chunksData,
        ih (by rwa [HttpUtils.allChunks] at hpre) _, String.append_assoc]
    | fail m => rw [HttpUtils.allChunks] at hpre; cases hpre

/-- Claim C10: download atomicity at file level.  On an ok response, if the
body stream fails after some chunks were written, `httpDownload` rejects
with the stream's error and the partially written destination file is
removed — a failed download never leaves the destination file behind; if
the stream completes without error, the promise resolves after the file
stream finishes, leaving the full chunk data in the destination file. -/
theorem claim_C10_download_atomic
    (res : HttpUtils.FetchResponse (List HttpUtils.StreamEvent))
    (dest0 : Option String) (pre rest : List HttpUtils.StreamEvent)
    (e : String) (hok : res.ok = true) :
    (res.body = pre ++ .fail e :: rest → HttpUtils.allChunks pre = true →
      HttpUtils.httpDownload res dest0 = (.error e, none)) ∧
      (HttpUtils.allChunks res.body = true →
        HttpUtils.httpDownload res dest0 =
          (.ok (), some (HttpUtils.chunksData res.body))) := by
  constructor
  · intro hbody hpre
    rw [HttpUtils.httpDownload, hok]
    simp only [Bool.not_true, Bool.false_eq_true, if_false]
    rw [hbody]
    exact pipeToFile_fail pre rest e hpre ""
  · intro hall
    rw [HttpUtils.httpDownload, hok]
    simp only [Bool.not_true, Bool.false_eq_true, if_false]
    rw [pipeToFile_ok res.body hall ""]
    simp [String.append]

/-- Witness for claim C10: a stream failing after the chunk "ab" leaves no
destination file even though one existed, and rejects with the stream
error; an error-free stream writes "abcd". -/
theorem claim_C10_download_atomic_witness :
    HttpUtils.httpDownload (HttpUtils.FetchResponse.mk true 200 "OK"
        [HttpUtils.StreamEvent.chunk "ab", HttpUtils.StreamEvent.fail "boom"])
      (some "old") = (.error "boom", none) ∧
      HttpUtils.httpDownload (HttpUtils.FetchResponse.mk true 200 "OK"
        [HttpUtils.StreamEvent.chunk "ab", HttpUtils.StreamEvent.chunk "cd"])
      none = (.ok (), some "abcd") :=
  ⟨(claim_C10_download_atomic
      (HttpUtils.FetchResponse.mk true 200 "OK"
        [HttpUtils.StreamEvent.chunk "ab", HttpUtils.StreamEvent.fail "boom"])
      (some "old") [HttpUtils.StreamEvent.chunk "ab"] [] "boom" rfl).1
      rfl rfl,
    (claim_C10_download_atomic
      (HttpUtils.FetchResponse.mk true 200 "OK"
        [HttpUtils.StreamEvent.chunk "ab", HttpUtils.StreamEvent.chunk "cd"])
      none [] [] "unused" rfl).2 rfl⟩

end LivePluginManager
